import Mathlib

set_option maxRecDepth 100000

/-!
Verification of the ESP32 edge-AI benchmark firmware
(`src/firmware/generator` and `src/firmware/inference`) against its
natural-language specification.

Each C module relevant to the checked claims is shallowly embedded below:
machine integers become `Nat`/`Int` with explicit `% 2^w` where wraparound
matters, module-static mutable state becomes explicit state records, and
the FreeRTOS queue becomes a bounded list.  Floating-point feature
computations are modelled over `ℝ` with exact arithmetic.
-/

/-! ## System constants (common.h / signal_acquisition.h / ml_contract.h) -/

/-- `ML_WINDOW_SIZE` / `WINDOW_SIZE` from ml_contract.h and common.h. -/
def WINDOW_SIZE : Nat := 256

/-- `WINDOW_OVERLAP` from common.h / signal_acquisition.h. -/
def WINDOW_OVERLAP : Nat := 128

/-- `CIRCULAR_BUFFER_SIZE` from common.h / signal_acquisition.h. -/
def CIRCULAR_BUFFER_SIZE : Nat := 1024

/-- `SAMPLING_RATE_HZ` from common.h. -/
def SAMPLING_RATE_HZ : Nat := 20000

/-- `ML_ADC_MIN` from ml_contract.h. -/
def ML_ADC_MIN : Nat := 0

/-- `ML_ADC_MAX` from ml_contract.h (12-bit ADC). -/
def ML_ADC_MAX : Nat := 4095

/-- The window queue is created with 20 slots (signal_acquisition.c:328). -/
def WINDOW_QUEUE_LENGTH : Nat := 20

/-- Modulus of a C `uint32_t`. -/
def UINT32_MOD : Nat := 2 ^ 32

/-- Modulus of a C `uint16_t`. -/
def UINT16_MOD : Nat := 2 ^ 16

/-- Modulus of a C `uint8_t`. -/
def UINT8_MOD : Nat := 2 ^ 8

/-! ## Packet codec (generator/main/uart_labels.c, uart_labels.h)

A byte is a `Nat` below 256.  The packed `uart_packet_t` struct is 42 bytes:
sync(1) type(1) sequence(2, LE) timestamp_ms(4, LE) payload_length(1)
payload(32) crc8(1). -/

/-- The 256-entry CRC8 lookup table (uart_labels.c:13-36, identical copy in
clock_sync.c:11-34); standard CRC-8 with polynomial 0x07. -/
def crc8_table : List Nat :=
  [0x00, 0x07, 0x0E, 0x09, 0x1C, 0x1B, 0x12, 0x15, 0x38, 0x3F, 0x36, 0x31,
   0x24, 0x23, 0x2A, 0x2D, 0x70, 0x77, 0x7E, 0x79, 0x6C, 0x6B, 0x62, 0x65,
   0x48, 0x4F, 0x46, 0x41, 0x54, 0x53, 0x5A, 0x5D, 0xE0, 0xE7, 0xEE, 0xE9,
   0xFC, 0xFB, 0xF2, 0xF5, 0xD8, 0xDF, 0xD6, 0xD1, 0xC4, 0xC3, 0xCA, 0xCD,
   0x90, 0x97, 0x9E, 0x99, 0x8C, 0x8B, 0x82, 0x85, 0xA8, 0xAF, 0xA6, 0xA1,
   0xB4, 0xB3, 0xBA, 0xBD, 0xC7, 0xC0, 0xC9, 0xCE, 0xDB, 0xDC, 0xD5, 0xD2,
   0xFF, 0xF8, 0xF1, 0xF6, 0xE3, 0xE4, 0xED, 0xEA, 0xB7, 0xB0, 0xB9, 0xBE,
   0xAB, 0xAC, 0xA5, 0xA2, 0x8F, 0x88, 0x81, 0x86, 0x93, 0x94, 0x9D, 0x9A,
   0x27, 0x20, 0x29, 0x2E, 0x3B, 0x3C, 0x35, 0x32, 0x1F, 0x18, 0x11, 0x16,
   0x03, 0x04, 0x0D, 0x0A, 0x57, 0x50, 0x59, 0x5E, 0x4B, 0x4C, 0x45, 0x42,
   0x6F, 0x68, 0x61, 0x66, 0x73, 0x74, 0x7D, 0x7A, 0x89, 0x8E, 0x87, 0x80,
   0x95, 0x92, 0x9B, 0x9C, 0xB1, 0xB6, 0xBF, 0xB8, 0xAD, 0xAA, 0xA3, 0xA4,
   0xF9, 0xFE, 0xF7, 0xF0, 0xE5, 0xE2, 0xEB, 0xEC, 0xC1, 0xC6, 0xCF, 0xC8,
   0xDD, 0xDA, 0xD3, 0xD4, 0x69, 0x6E, 0x67, 0x60, 0x75, 0x72, 0x7B, 0x7C,
   0x51, 0x56, 0x5F, 0x58, 0x4D, 0x4A, 0x43, 0x44, 0x19, 0x1E, 0x17, 0x10,
   0x05, 0x02, 0x0B, 0x0C, 0x21, 0x26, 0x2F, 0x28, 0x3D, 0x3A, 0x33, 0x34,
   0x4E, 0x49, 0x40, 0x47, 0x52, 0x55, 0x5C, 0x5B, 0x76, 0x71, 0x78, 0x7F,
   0x6A, 0x6D, 0x64, 0x63, 0x3E, 0x39, 0x30, 0x37, 0x22, 0x25, 0x2C, 0x2B,
   0x06, 0x01, 0x08, 0x0F, 0x1A, 0x1D, 0x14, 0x13, 0xAE, 0xA9, 0xA0, 0xA7,
   0xB2, 0xB5, 0xBC, 0xBB, 0x96, 0x91, 0x98, 0x9F, 0x8A, 0x8D, 0x84, 0x83,
   0xDE, 0xD9, 0xD0, 0xD7, 0xC2, 0xC5, 0xCC, 0xCB, 0xE6, 0xE1, 0xE8, 0xEF,
   0xFA, 0xFD, 0xF4, 0xF3]

/-- One table-driven CRC8 step: `crc = crc8_table[crc ^ data[i]]`
(uart_labels.c:41). -/
def crc8_step (crc b : Nat) : Nat := crc8_table.getD (crc ^^^ b) 0

/-- `calculate_crc8` (uart_labels.c:38-44): fold the table step over the
data bytes starting from 0. -/
def calculate_crc8 (data : List Nat) : Nat := data.foldl crc8_step 0

/-- The packed `uart_packet_t` (uart_labels.h:22-30), minus the trailing
`crc8` field, which `uart_send_packet` computes on transmit. -/
structure uart_packet_t where
  sync_byte : Nat
  packet_type : Nat
  sequence : Nat
  timestamp_ms : Nat
  payload_length : Nat
  payload : List Nat
deriving DecidableEq, Repr

/-- Field ranges implied by the C types, plus the fixed sync byte 0xAA and
the 32-byte payload array. -/
def valid_packet (p : uart_packet_t) : Prop :=
  p.sync_byte = 0xAA ∧ p.packet_type < UINT8_MOD ∧ p.sequence < UINT16_MOD ∧
  p.timestamp_ms < UINT32_MOD ∧ p.payload_length < UINT8_MOD ∧
  p.payload.length = 32 ∧ ∀ b ∈ p.payload, b < UINT8_MOD

instance (p : uart_packet_t) : Decidable (valid_packet p) := by
  unfold valid_packet; infer_instance

/-- The first 41 wire bytes of a packet: the packed little-endian layout of
`uart_packet_t` on the ESP32 (uart_labels.h:22-30) up to but excluding the
CRC byte. -/
def packet_bytes (p : uart_packet_t) : List Nat :=
  p.sync_byte :: p.packet_type ::
  (p.sequence % 256) :: (p.sequence / 256 % 256) ::
  (p.timestamp_ms % 256) :: (p.timestamp_ms / 2 ^ 8 % 256) ::
  (p.timestamp_ms / 2 ^ 16 % 256) :: (p.timestamp_ms / 2 ^ 24 % 256) ::
  p.payload_length :: p.payload

/-- `uart_send_packet` (uart_labels.c:105-119): the 42 bytes put on the
wire, with `crc8 = calculate_crc8(packet, sizeof - 1)` appended. -/
def encode_packet (p : uart_packet_t) : List Nat :=
  packet_bytes p ++ [calculate_crc8 (packet_bytes p)]

/-- Receiver-side frame validation (uart_wait_for_ack, uart_labels.c:85-91,
minus the ACK-specific type/sequence matching): a full 42-byte read whose
first byte is the 0xAA sync byte and whose CRC8 over the first 41 bytes
equals the trailing byte. -/
def packet_frame_ok (bs : List Nat) : Bool :=
  bs.length == 42 && bs.getD 0 0 == 0xAA &&
  calculate_crc8 (bs.take 41) == bs.getD 41 0

/-- Inverse of the wire layout: parse a validated 42-byte buffer back into
the packet fields (the receiver does this by casting the buffer to
`uart_packet_t`, uart_labels.c:86). -/
def decode_packet (bs : List Nat) : Option uart_packet_t :=
  if packet_frame_ok bs then
    some { sync_byte := bs.getD 0 0
           packet_type := bs.getD 1 0
           sequence := bs.getD 2 0 + 256 * bs.getD 3 0
           timestamp_ms := bs.getD 4 0 + 2 ^ 8 * bs.getD 5 0 +
                           2 ^ 16 * bs.getD 6 0 + 2 ^ 24 * bs.getD 7 0
           payload_length := bs.getD 8 0
           payload := (bs.drop 9).take 32 }
  else none

/-- Flip bit `k` of byte `j` of a byte buffer. -/
def flip_bit (bs : List Nat) (j k : Nat) : List Nat :=
  bs.take j ++ (bs.getD j 0 ^^^ 1 <<< k) :: bs.drop (j + 1)

/-! ## Label ACK protocol (generator/main/uart_labels.c)

`uart_wait_for_ack` polls `uart_read_bytes` in 10 ms ticks until the
elapsed wall-clock time reaches the timeout.  The serial environment is a
trace of read results, each with the wall-clock duration the read took and
the bytes it returned (only full 42-byte reads are examined by the C
code). -/

/-- `ACK_TIMEOUT`: `uart_send_label_with_ack` waits 100 ms per attempt
(uart_labels.c:161). -/
def ACK_TIMEOUT_MS : Nat := 100

/-- Backoff between attempts: `vTaskDelay(10 / portTICK_PERIOD_MS)`
(uart_labels.c:167). -/
def RETRY_BACKOFF_MS : Nat := 10

/-- Retry count: `for (int retry = 0; retry < 3; retry++)`
(uart_labels.c:157). -/
def MAX_RETRIES : Nat := 3

/-- One result of `uart_read_bytes`: how long the call took and the bytes
it returned. -/
structure uart_read_t where
  dur : Nat
  bytes : List Nat
deriving DecidableEq, Repr

/-- The acceptance test inside `uart_wait_for_ack` (uart_labels.c:85-97):
a full-size read whose sync byte, packet type (`PKT_TYPE_ACK = 0x04`),
CRC and little-endian sequence field all match. -/
def is_matching_ack (seq : Nat) (bs : List Nat) : Bool :=
  bs.length == 42 && bs.getD 0 0 == 0xAA && bs.getD 1 0 == 0x04 &&
  calculate_crc8 (bs.take 41) == bs.getD 41 0 &&
  bs.getD 2 0 + 256 * bs.getD 3 0 == seq

/-- `uart_wait_for_ack` (uart_labels.c:78-103) over a read trace: loop
while the elapsed time is below the timeout, performing one read per
iteration; return true on a matching ACK.  Returns the success flag and
the elapsed time on exit. -/
def uart_wait_for_ack (seq timeout : Nat) : List uart_read_t → Nat → Bool × Nat
  | [], elapsed => (false, elapsed)
  | r :: rest, elapsed =>
    if timeout ≤ elapsed then (false, elapsed)
    else
      let e := elapsed + r.dur
      if is_matching_ack seq r.bytes then (true, e)
      else uart_wait_for_ack seq timeout rest e

/-- The retry loop of `uart_send_label_with_ack` (uart_labels.c:157-168):
up to `n` attempts, each transmitting the same packet (built once, before
the loop, from the current sequence number), waiting for a matching ACK,
and sleeping the backoff on failure.  `traces` gives the serial
environment of each attempt.  Returns (success, total elapsed time,
attempts performed). -/
def uart_send_attempts (seq timeout : Nat) : Nat → List (List uart_read_t) → Bool × Nat × Nat
  | 0, _ => (false, 0, 0)
  | n + 1, traces =>
    let w := uart_wait_for_ack seq timeout (traces.headD []) 0
    if w.1 then (true, w.2, 1)
    else
      let rest := uart_send_attempts seq timeout n traces.tail
      (rest.1, w.2 + RETRY_BACKOFF_MS + rest.2.1, rest.2.2 + 1)

/-- `uart_send_label_with_ack` (uart_labels.c:141-171): run the retry loop
on the module sequence counter `s_sequence_number`; increment the counter
(`uint16_t`, hence mod 2^16) only when an attempt was acknowledged.
Returns (success, new sequence counter, total elapsed time, attempts). -/
def uart_send_label_with_ack (seq : Nat) (traces : List (List uart_read_t)) :
    Bool × Nat × Nat × Nat :=
  let r := uart_send_attempts seq ACK_TIMEOUT_MS MAX_RETRIES traces
  (r.1, if r.1 then (seq + 1) % UINT16_MOD else seq, r.2.1, r.2.2)

/-! ## Signal acquisition (inference/main/signal_acquisition.c)

Module statics (circular buffer, indices, window counter, statistics,
queue, label, running flag) become one state record.  The ADC capture
path stores samples one at a time (capture_task, lines 267-277); window
extraction is `extract_window` (lines 160-224). -/

/-- `window_buffer_t` (signal_acquisition.h): one extracted window with
its metadata. -/
structure window_buffer_t where
  samples : List Nat
  timestamp_us : Nat
  window_id : Nat
  sample_rate_hz : Nat
  sequence_number : Nat
  label : Nat
  checksum : Nat
deriving DecidableEq, Repr

/-- The module-static state of signal_acquisition.c: circular buffer
contents (indexed mod `CIRCULAR_BUFFER_SIZE`), write/read cursors, the
`uint32_t` window counter, current ground-truth label, the bounded window
queue, the running flag and the statistics counters. -/
structure acq_state where
  circular_buffer : Nat → Nat
  write_idx : Nat
  read_idx : Nat
  window_counter : Nat
  current_label : Nat
  window_queue : List window_buffer_t
  capture_running : Bool
  buffer_overruns : Nat
  windows_captured : Nat
  samples_processed : Nat

/-- The available-sample computation at the top of `extract_window`
(signal_acquisition.c:164-170): `write - read` when `write >= read`, else
`CIRCULAR_BUFFER_SIZE - read + write`. -/
def available_samples (s : acq_state) : Nat :=
  if s.read_idx ≤ s.write_idx then s.write_idx - s.read_idx
  else CIRCULAR_BUFFER_SIZE - s.read_idx + s.write_idx

/-- `extract_window` (signal_acquisition.c:160-224).  Returns the new
module state and the window that was built, if any.  Steps: (1) return
immediately when fewer than `WINDOW_SIZE` samples are available; (2) if
any buffer overrun has been recorded, reset the read index to
`(write_idx - WINDOW_SIZE + CIRCULAR_BUFFER_SIZE) % CIRCULAR_BUFFER_SIZE`;
(3) copy `WINDOW_SIZE` samples from the (possibly reset) read index with
modulo wraparound; (4) advance the read index by `WINDOW_OVERLAP`;
(5) stamp id/sequence/label and the additive `uint32_t` checksum;
(6) non-blocking queue send: on success bump the capture statistics, on a
full queue bump `buffer_overruns` instead. -/
def extract_window (now : Nat) (s : acq_state) : acq_state × Option window_buffer_t :=
  if available_samples s < WINDOW_SIZE then (s, none)
  else
    let r0 := if 0 < s.buffer_overruns then
        (s.write_idx + CIRCULAR_BUFFER_SIZE - WINDOW_SIZE) % CIRCULAR_BUFFER_SIZE
      else s.read_idx
    let window := List.ofFn fun i : Fin WINDOW_SIZE =>
      s.circular_buffer ((r0 + i.val) % CIRCULAR_BUFFER_SIZE)
    let wb : window_buffer_t :=
      { samples := window
        timestamp_us := now
        window_id := s.window_counter
        sample_rate_hz := SAMPLING_RATE_HZ
        sequence_number := (s.window_counter + 1) % UINT32_MOD
        label := s.current_label
        checksum := window.sum % UINT32_MOD }
    let s1 := { s with
      read_idx := (r0 + WINDOW_OVERLAP) % CIRCULAR_BUFFER_SIZE
      window_counter := (s.window_counter + 1) % UINT32_MOD }
    if s.capture_running then
      if s1.window_queue.length < WINDOW_QUEUE_LENGTH then
        ({ s1 with
            window_queue := s1.window_queue ++ [wb]
            windows_captured := s1.windows_captured + 1
            samples_processed := s1.samples_processed + WINDOW_SIZE }, some wb)
      else
        ({ s1 with buffer_overruns := s1.buffer_overruns + 1 }, some wb)
    else (s1, some wb)

/-- Storing one parsed ADC sample (capture_task,
signal_acquisition.c:267-277): write at `write_idx`, advance it mod the
capacity, and on catching up with the read cursor bump the overrun counter
and force the read cursor forward by `WINDOW_OVERLAP`. -/
def store_sample (v : Nat) (s : acq_state) : acq_state :=
  let buf := fun i => if i = s.write_idx then v % UINT16_MOD else s.circular_buffer i
  let w := (s.write_idx + 1) % CIRCULAR_BUFFER_SIZE
  if w = s.read_idx then
    { s with
        circular_buffer := buf
        write_idx := w
        buffer_overruns := s.buffer_overruns + 1
        read_idx := (s.read_idx + WINDOW_OVERLAP) % CIRCULAR_BUFFER_SIZE }
  else { s with circular_buffer := buf, write_idx := w }

/-- The operations that touch the acquisition state: the ISR-driven
capture path storing a sample, a call to `extract_window`, and the
processing task receiving one window from the queue. -/
inductive acq_op where
  | store (v : Nat)
  | extract (now : Nat)
  | receive
deriving DecidableEq, Repr

/-- One step of the acquisition module, returning the window built by
`extract_window` when one was built. -/
def acq_step (s : acq_state) : acq_op → acq_state × Option window_buffer_t
  | .store v => (store_sample v s, none)
  | .extract now => extract_window now s
  | .receive => ({ s with window_queue := s.window_queue.drop 1 }, none)

/-- Run a sequence of acquisition operations, collecting every window
`extract_window` built, in order. -/
def run_acq (s : acq_state) : List acq_op → acq_state × List window_buffer_t
  | [] => (s, [])
  | op :: ops =>
    let st := acq_step s op
    let rest := run_acq st.1 ops
    (rest.1, st.2.toList ++ rest.2)

/-! ## Clock synchronization (inference/main/clock_sync.c)

The two function-statics of `sync_process_packet` (`last_local_time`,
`last_offset`) are modelled as state fields; both start at 0 like C
statics.  `uint32_t` timestamps wrap mod 2^32 and the offset is the
`int32_t` interpretation of their wrapped difference. -/

/-- Interpret the low 32 bits of a natural number as a C `int32_t`. -/
def toInt32 (n : Nat) : Int :=
  if n % UINT32_MOD < 2 ^ 31 then (n % UINT32_MOD : Int)
  else (n % UINT32_MOD : Int) - (UINT32_MOD : Int)

/-- `clock_sync_t` (clock_sync.h) plus the two function-static variables
of `sync_process_packet`. -/
structure clock_sync_t where
  offset_ms : Int
  drift_ppm : ℝ
  synchronized : Bool
  sync_count : Nat
  remote_timestamp : Nat
  local_timestamp : Nat
  last_local_time : Nat
  last_offset : Int

/-- `sync_init` (clock_sync.c:36-46): zero everything. -/
noncomputable def sync_init : clock_sync_t :=
  { offset_ms := 0, drift_ppm := 0, synchronized := false, sync_count := 0
    remote_timestamp := 0, local_timestamp := 0
    last_local_time := 0, last_offset := 0 }

/-- `sync_process_packet` (clock_sync.c:48-107).  `local_ms` is the local
receive time in ms (the C code truncates `esp_timer_get_time()/1000` to
`uint32_t`), `remote_ms` the packet's `timestamp_ms` field.
`new_offset = (int32_t)(local - remote)` in `uint32_t` arithmetic.  The
first processed packet (`sync_count == 0`) sets the offset directly;
later packets apply the `(offset*7 + new_offset) / 8` low-pass filter
with C truncating division.  Drift is recomputed only when more than
1000 ms of local time passed since the previous update.  The
`synchronized` flag tracks `|offset| < 100`. -/
noncomputable def sync_process_packet (s : clock_sync_t) (local_ms remote_ms : Nat) : clock_sync_t :=
  let lr := local_ms % UINT32_MOD
  let rs := remote_ms % UINT32_MOD
  let new_offset := toInt32 (lr + UINT32_MOD - rs)
  let s1 :=
    if 0 < s.sync_count then
      let filtered := Int.tdiv (s.offset_ms * 7 + new_offset) 8
      let time_change := (lr + UINT32_MOD - s.last_local_time) % UINT32_MOD
      let offset_change := new_offset - s.last_offset
      let drift :=
        if 0 < s.last_local_time ∧ 1000 < time_change then
          (offset_change : ℝ) * 1000000 / (time_change : ℝ)
        else s.drift_ppm
      { s with offset_ms := filtered, drift_ppm := drift
               last_local_time := lr, last_offset := new_offset }
    else { s with offset_ms := new_offset }
  { s1 with
      remote_timestamp := rs
      local_timestamp := lr
      sync_count := (s.sync_count + 1) % UINT32_MOD
      synchronized := s1.offset_ms.natAbs < 100 }

/-! ## Feature extraction (inference/main/feature_extraction.c)

The C code computes `float` statistics; they are modelled over `ℝ` with
exact arithmetic.  Samples are raw `uint16_t` ADC readings; every C
function receives the sample count separately but always iterates exactly
over the array, so the model uses the list length as the count. -/

open scoped Classical

/-- `calculate_mean_value` (feature_extraction.c:32-38). -/
noncomputable def calculate_mean_value (samples : List Nat) : ℝ :=
  (samples.map fun s : Nat => (s : ℝ)).sum / samples.length

/-- `remove_dc_offset` (feature_extraction.c:47-52). -/
noncomputable def remove_dc_offset (samples : List Nat) : List ℝ :=
  let mean := calculate_mean_value samples
  samples.map fun s : Nat => (s : ℝ) - mean

/-- The zero-crossing count loop of `calculate_zero_crossing_rate`
(feature_extraction.c:70-77): a crossing between adjacent DC-removed
samples is `prev > 0 ∧ cur ≤ 0` or `prev ≤ 0 ∧ cur > 0`. -/
noncomputable def count_zero_crossings : List ℝ → Nat
  | a :: b :: rest =>
    (if (0 < a ∧ b ≤ 0) ∨ (a ≤ 0 ∧ 0 < b) then 1 else 0) +
      count_zero_crossings (b :: rest)
  | _ => 0

/-- `calculate_zero_crossing_rate` (feature_extraction.c:61-81). -/
noncomputable def calculate_zero_crossing_rate (samples : List Nat) : ℝ :=
  if samples.length < 2 then 0
  else (count_zero_crossings (remove_dc_offset samples) : ℝ) /
       ((samples.length - 1 : Nat) : ℝ)

/-- `calculate_variance_value` (feature_extraction.c:91-98): population
variance about the supplied mean. -/
noncomputable def calculate_variance_value (samples : List Nat) (mean : ℝ) : ℝ :=
  (samples.map fun s : Nat => ((s : ℝ) - mean) * ((s : ℝ) - mean)).sum / samples.length

/-- `calculate_skewness_value` (feature_extraction.c:109-120): 0 when
`count < 3` or `variance < 1e-6`, else the third central moment over
`variance^1.5` (`powf(variance, 1.5f)` = `variance * sqrt variance`). -/
noncomputable def calculate_skewness_value (samples : List Nat) (mean variance : ℝ) : ℝ :=
  if samples.length < 3 ∨ variance < 1 / 1000000 then 0
  else ((samples.map fun s : Nat => ((s : ℝ) - mean) ^ 3).sum / samples.length) /
       (variance * Real.sqrt variance)

/-- `calculate_kurtosis_value` (feature_extraction.c:131-142): 0 when
`count < 4` or `variance < 1e-6`, else the fourth central moment over
`variance²`. -/
noncomputable def calculate_kurtosis_value (samples : List Nat) (mean variance : ℝ) : ℝ :=
  if samples.length < 4 ∨ variance < 1 / 1000000 then 0
  else ((samples.map fun s : Nat => ((s : ℝ) - mean) ^ 4).sum / samples.length) /
       (variance * variance)

/-- `calculate_rms` (feature_extraction.c:284-290). -/
noncomputable def calculate_rms (samples : List Nat) : ℝ :=
  Real.sqrt ((samples.map fun s : Nat => (s : ℝ) * (s : ℝ)).sum / samples.length)

/-- Minimum sample value (the `min_val` scans of feature_extraction.c;
the C scans start from `samples[0]`, so folding the head again is
equivalent). -/
def min_sample (samples : List Nat) : Nat := samples.foldl Nat.min (samples.headD 0)

/-- Maximum sample value (the `max_val` scans of feature_extraction.c). -/
def max_sample (samples : List Nat) : Nat := samples.foldl Nat.max (samples.headD 0)

/-- `calculate_crest_factor` (feature_extraction.c:302-325): recompute the
RMS when the supplied one is below 1e-6, guard again, then
`(peak_to_peak / 2) / rms`. -/
noncomputable def calculate_crest_factor (samples : List Nat) (rms : ℝ) : ℝ :=
  if samples.length = 0 then 0
  else
    let rms1 := if rms < 1 / 1000000 then calculate_rms samples else rms
    if rms1 < 1 / 1000000 then 0
    else ((max_sample samples - min_sample samples : Nat) : ℝ) / 2 / rms1

/-- `calculate_form_factor` (feature_extraction.c:337-356): RMS over mean
absolute value, with the same RMS guards and a mean-absolute guard. -/
noncomputable def calculate_form_factor (samples : List Nat) (rms : ℝ) : ℝ :=
  if samples.length = 0 then 0
  else
    let rms1 := if rms < 1 / 1000000 then calculate_rms samples else rms
    if rms1 < 1 / 1000000 then 0
    else
      let mean_abs := (samples.map fun s : Nat => |(s : ℝ)|).sum / samples.length
      if mean_abs < 1 / 1000000 then 0 else rms1 / mean_abs

/-- One lag iteration of `calculate_periodicity`
(feature_extraction.c:158-177): normalized autocorrelation at this lag,
kept when both norms are positive and it improves the maximum. -/
noncomputable def periodicity_step (samples : List Nat) (mean : ℝ) (acc : ℝ) (lag : Nat) : ℝ :=
  let n := samples.length
  let correlation := ((List.range (n - lag)).map fun i : Nat =>
    ((samples.getD i 0 : ℝ) - mean) * ((samples.getD (i + lag) 0 : ℝ) - mean)).sum
  let norm1 := ((List.range (n - lag)).map fun i : Nat =>
    ((samples.getD i 0 : ℝ) - mean) * ((samples.getD i 0 : ℝ) - mean)).sum
  let norm2 := ((List.range (n - lag)).map fun i : Nat =>
    ((samples.getD (i + lag) 0 : ℝ) - mean) * ((samples.getD (i + lag) 0 : ℝ) - mean)).sum
  if 0 < norm1 ∧ 0 < norm2 then
    let corr := correlation / Real.sqrt (norm1 * norm2)
    if acc < corr then corr else acc
  else acc

/-- `calculate_periodicity` (feature_extraction.c:151-180): 0 for fewer
than 64 samples, else the maximum normalized autocorrelation over lags
`8 ≤ lag < count/4`. -/
noncomputable def calculate_periodicity (samples : List Nat) : ℝ :=
  if samples.length < 64 then 0
  else (List.range' 8 (samples.length / 4 - 8)).foldl
    (periodicity_step samples (calculate_mean_value samples)) 0

/-- `calculate_harmonic_ratio` (feature_extraction.c:189-213): the
zero-crossing-rate bucketing heuristic (the allocated scratch buffer in
the C code is unused). -/
noncomputable def calculate_harmonic_ratio (samples : List Nat) : ℝ :=
  let zcr := calculate_zero_crossing_rate samples
  if (0.3 : ℝ) < zcr then 0.1 else if zcr < (0.05 : ℝ) then 0.3 else 0.6

/-- Result of the min/max scan in `calculate_asymmetry`
(feature_extraction.c:225-240): values and first indices of the sample
minimum and maximum. -/
structure min_max_scan_t where
  min_val : Nat
  min_idx : Nat
  max_val : Nat
  max_idx : Nat
deriving DecidableEq, Repr

/-- One iteration of the min/max scan loop in `calculate_asymmetry`
(feature_extraction.c:231-240): strict comparisons, so the first
occurrence of each extremum wins. -/
def min_max_step (st : min_max_scan_t) (p : Nat × Nat) : min_max_scan_t :=
  let st1 := if p.2 < st.min_val then
      { st with min_val := p.2, min_idx := p.1 } else st
  if st1.max_val < p.2 then
    { st1 with max_val := p.2, max_idx := p.1 } else st1

/-- The scan loop of `calculate_asymmetry`, started at `samples[0]`. -/
def min_max_scan (samples : List Nat) : min_max_scan_t :=
  match samples with
  | [] => { min_val := 0, min_idx := 0, max_val := 0, max_idx := 0 }
  | s0 :: rest =>
    (List.enumFrom 1 rest).foldl min_max_step
      { min_val := s0, min_idx := 0, max_val := s0, max_idx := 0 }

/-- `calculate_asymmetry` (feature_extraction.c:222-252): 0.5 for short or
constant windows, else the absolute distance between the normalized
first min/max indices. -/
noncomputable def calculate_asymmetry (samples : List Nat) : ℝ :=
  if samples.length < 2 then 1 / 2
  else
    let q := min_max_scan samples
    if q.max_val = q.min_val then 1 / 2
    else |((q.max_idx : ℝ) / samples.length) - ((q.min_idx : ℝ) / samples.length)|

/-- `extract_features` (feature_extraction.c:395-444): the 16-slot feature
vector, in the source's slot order
[mean, variance, rms, zcr, skewness, kurtosis, crest, form, periodicity,
harmonic_ratio, asymmetry, peak_to_peak, min, max, duty_cycle (0.5
placeholder), sample_rate_khz]. -/
noncomputable def extract_features (w : window_buffer_t) : List ℝ :=
  let samples := w.samples
  let mean := calculate_mean_value samples
  let variance := calculate_variance_value samples mean
  let rms := calculate_rms samples
  [mean, variance, rms,
   calculate_zero_crossing_rate samples,
   calculate_skewness_value samples mean variance,
   calculate_kurtosis_value samples mean variance,
   calculate_crest_factor samples rms,
   calculate_form_factor samples rms,
   calculate_periodicity samples,
   calculate_harmonic_ratio samples,
   calculate_asymmetry samples,
   ((max_sample samples - min_sample samples : Nat) : ℝ),
   (min_sample samples : ℝ), (max_sample samples : ℝ),
   1 / 2, (w.sample_rate_hz : ℝ) / 1000]

/-! ## Classification engine (spec §4.4)

The final-revision classification engine consuming `window_buffer_t` is
absent from src/: `main.c:162` calls `run_inference(&window)` and
`main.c:186` calls `get_inference_stats()`, but no definition of either
exists in the tree; only the validation macros survive in ml_contract.h.
The engine is therefore modelled from the specification, on top of the
source-derived feature functions above. -/

/-- `ml_class_t` (ml_contract.h:62-69). -/
inductive ml_class where
  | sine
  | square
  | triangle
  | sawtooth
  | noise
deriving DecidableEq, Repr

/-- `ML_VALIDATE_ADC_SAMPLE` (ml_contract.h:88-89): sample within
`[ML_ADC_MIN, ML_ADC_MAX]`. -/
def ML_VALIDATE_ADC_SAMPLE (s : Nat) : Bool :=
  decide (ML_ADC_MIN ≤ s) && decide (s ≤ ML_ADC_MAX)

/-- Modelled from the spec: the contract validation performed by the
missing `run_inference` before classification (spec §4.4: "sample values
within ADC range, checksum matches, `window_id` present"; the checksum is
"the additive sum of all samples", §3).  The `window_id` field is always
present in the embedding, so no separate check remains for it. -/
def validate_window_contract (w : window_buffer_t) : Bool :=
  w.samples.all ML_VALIDATE_ADC_SAMPLE && (w.checksum == w.samples.sum)

/-- The features consulted by the spec §4.4 heuristic decision tree. -/
structure signal_feature_vec where
  variance : ℝ
  zcr : ℝ
  periodicity : ℝ
  crest_factor : ℝ
  skewness : ℝ
  asymmetry : ℝ

/-- The heuristic features of a window, computed by the source feature
extractor (feature_extraction.c) exactly as `extract_features` computes
them. -/
noncomputable def features_of_window (w : window_buffer_t) : signal_feature_vec :=
  let samples := w.samples
  let mean := calculate_mean_value samples
  let variance := calculate_variance_value samples mean
  { variance := variance
    zcr := calculate_zero_crossing_rate samples
    periodicity := calculate_periodicity samples
    crest_factor := calculate_crest_factor samples (calculate_rms samples)
    skewness := calculate_skewness_value samples mean variance
    asymmetry := calculate_asymmetry samples }

/-- The tunable thresholds of the spec §4.4 decision tree ("numeric
thresholds treated as tunable configuration"). -/
structure heuristic_thresholds where
  noise_var_thresh : ℝ
  sine_zcr_min : ℝ
  sine_periodicity_min : ℝ
  square_zcr_max : ℝ
  square_crest_max : ℝ
  sawtooth_skew_min : ℝ
  sawtooth_asymmetry_min : ℝ
  triangle_skew_max : ℝ
  triangle_zcr_lo : ℝ
  triangle_zcr_hi : ℝ
  fallback_zcr_lo : ℝ
  fallback_zcr_hi : ℝ

/-- Clamp a confidence to [0, 1] (spec §4.4). -/
noncomputable def clamp01 (x : ℝ) : ℝ := max 0 (min 1 x)

/-- Modelled from the spec: the missing final-revision heuristic decision
tree (spec §4.4), evaluated in the specified fixed order; per-branch
confidence is the clamped relative distance of the deciding feature from
its threshold. -/
noncomputable def heuristic_classify (cfg : heuristic_thresholds)
    (f : signal_feature_vec) : ml_class × ℝ :=
  if f.variance < cfg.noise_var_thresh then
    (.noise, clamp01 ((cfg.noise_var_thresh - f.variance) / cfg.noise_var_thresh))
  else if cfg.sine_zcr_min < f.zcr ∧ cfg.sine_periodicity_min < f.periodicity then
    (.sine, clamp01 (f.periodicity - cfg.sine_periodicity_min))
  else if f.zcr < cfg.square_zcr_max ∧ f.crest_factor < cfg.square_crest_max then
    (.square, clamp01 (cfg.square_crest_max - f.crest_factor))
  else if cfg.sawtooth_skew_min < |f.skewness| ∧ cfg.sawtooth_asymmetry_min < f.asymmetry then
    (.sawtooth, clamp01 (|f.skewness| - cfg.sawtooth_skew_min))
  else if |f.skewness| < cfg.triangle_skew_max ∧
          cfg.triangle_zcr_lo ≤ f.zcr ∧ f.zcr ≤ cfg.triangle_zcr_hi then
    (.triangle, clamp01 (cfg.triangle_skew_max - |f.skewness|))
  else if f.zcr ≤ cfg.fallback_zcr_lo then (.square, clamp01 (cfg.fallback_zcr_lo - f.zcr))
  else if cfg.fallback_zcr_hi ≤ f.zcr then (.sine, clamp01 (f.zcr - cfg.fallback_zcr_hi))
  else (.triangle, clamp01 (cfg.fallback_zcr_hi - f.zcr))

/-- `ml_output_t` (ml_contract.h:76-81), without the timing field. -/
structure ml_output_t where
  predicted_class : ml_class
  confidence : ℝ
  window_id : Nat

/-- Modelled from the spec: the missing `run_inference` entry point called
at main.c:162 (spec §4.4): validate the window against the fixed ML
contract; a violation increments the violation counter and
short-circuits to `Noise` with confidence 0, otherwise the heuristic
classifier runs on the extracted features.  Returns the result and the
updated contract-violation counter. -/
noncomputable def run_inference (cfg : heuristic_thresholds)
    (w : window_buffer_t) (violations : Nat) : ml_output_t × Nat :=
  if validate_window_contract w then
    let r := heuristic_classify cfg (features_of_window w)
    ({ predicted_class := r.1, confidence := r.2, window_id := w.window_id }, violations)
  else
    ({ predicted_class := .noise, confidence := 0, window_id := w.window_id },
     violations + 1)

/-! ## Concrete fixtures used to instantiate the theorems -/

/-- A trivial window value (used as queue filler and `Inhabited` default). -/
def dummy_window : window_buffer_t :=
  { samples := [], timestamp_us := 0, window_id := 0, sample_rate_hz := 0
    sequence_number := 0, label := 0, checksum := 0 }

instance : Inhabited window_buffer_t := ⟨dummy_window⟩

/-- An acquisition state with 512 samples buffered and no overrun
recorded. -/
def ready_demo : acq_state :=
  { circular_buffer := fun i => i % 4096
    write_idx := 512, read_idx := 0, window_counter := 0, current_label := 0
    window_queue := [], capture_running := true
    buffer_overruns := 0, windows_captured := 0, samples_processed := 0 }

/-- The same acquisition state, but with one recorded buffer overrun. -/
def overrun_demo : acq_state :=
  { ready_demo with buffer_overruns := 1 }

/-- The same acquisition state with a full window queue. -/
def full_queue_demo : acq_state :=
  { ready_demo with window_queue := List.replicate WINDOW_QUEUE_LENGTH dummy_window }

/-- An idle 10 ms poll of `uart_read_bytes` returning no data. -/
def idle_read : uart_read_t := { dur := 10, bytes := [] }

/-- A full ACK-wait of idle polls: 10 reads of 10 ms each. -/
def idle_trace : List uart_read_t := List.replicate 10 idle_read

/-- A silent peer for all three send attempts. -/
def idle_traces : List (List uart_read_t) := List.replicate 3 idle_trace

/-- A concrete valid label packet. -/
def demo_packet : uart_packet_t :=
  { sync_byte := 0xAA, packet_type := 0x01, sequence := 7
    timestamp_ms := 123456, payload_length := 4
    payload := [0x53, 0x49, 0x4E, 0x45] ++ List.replicate 28 0 }

/-- A window violating the ML contract: its stored checksum (0) differs
from the additive sum of its samples (256). -/
def bad_window : window_buffer_t :=
  { samples := List.replicate WINDOW_SIZE 1, timestamp_us := 0, window_id := 5
    sample_rate_hz := SAMPLING_RATE_HZ, sequence_number := 6, label := 0
    checksum := 0 }

/-- A constant-valued window with a correct checksum. -/
def const_window (c : Nat) : window_buffer_t :=
  { samples := List.replicate WINDOW_SIZE c, timestamp_us := 0, window_id := 1
    sample_rate_hz := SAMPLING_RATE_HZ, sequence_number := 2, label := 4
    checksum := WINDOW_SIZE * c }

/-- A concrete threshold configuration for the spec-modelled heuristic. -/
noncomputable def demo_thresholds : heuristic_thresholds :=
  { noise_var_thresh := 1, sine_zcr_min := 0.35, sine_periodicity_min := 0.7
    square_zcr_max := 0.05, square_crest_max := 1.2
    sawtooth_skew_min := 0.4, sawtooth_asymmetry_min := 0.7
    triangle_skew_max := 0.2, triangle_zcr_lo := 0.1, triangle_zcr_hi := 0.35
    fallback_zcr_lo := 0.1, fallback_zcr_hi := 0.3 }

/-! # Theorems -/

/-! ## C6: clock-offset update -/

/-- C6: on each received synchronization packet the clock synchronizer
computes `new_offset = local_receive_time - remote_send_time` (as the
`int32_t` view of the wrapped `uint32_t` difference, which equals the
mathematical difference whenever it fits in an `int32_t`); the first
packet processed since initialization (`sync_count == 0`) sets
`offset_ms` to `new_offset` directly, and every later packet updates it
to `(offset_ms*7 + new_offset)/8` with C truncating division. -/
theorem spec_c6_clock_offset_update (s : clock_sync_t) (lm rm : Nat)
    (hl : lm < UINT32_MOD) (hr : rm < UINT32_MOD) :
    (s.sync_count = 0 →
      (sync_process_packet s lm rm).offset_ms = toInt32 (lm + UINT32_MOD - rm)) ∧
    (0 < s.sync_count →
      (sync_process_packet s lm rm).offset_ms =
        Int.tdiv (s.offset_ms * 7 + toInt32 (lm + UINT32_MOD - rm)) 8) ∧
    (-(2 ^ 31 : Int) ≤ (lm : Int) - rm → (lm : Int) - rm < 2 ^ 31 →
      toInt32 (lm + UINT32_MOD - rm) = (lm : Int) - rm) := by
  refine ⟨?_, ?_, ?_⟩
  · intro h0
    simp [sync_process_packet, h0, Nat.mod_eq_of_lt hl, Nat.mod_eq_of_lt hr]
  · intro h1
    simp [sync_process_packet, h1, Nat.mod_eq_of_lt hl, Nat.mod_eq_of_lt hr]
  · intro hlo hhi
    simp only [toInt32, UINT32_MOD] at *
    split <;> omega

/-- Witness for C6 at a concrete state and timestamps. -/
theorem spec_c6_witness :
    (sync_process_packet sync_init 5000 4000).offset_ms =
      toInt32 (5000 + UINT32_MOD - 4000) ∧
    toInt32 (5000 + UINT32_MOD - 4000) = (5000 : Int) - 4000 :=
  ⟨(spec_c6_clock_offset_update sync_init 5000 4000 (by decide) (by decide)).1 rfl,
   (spec_c6_clock_offset_update sync_init 5000 4000 (by decide) (by decide)).2.2
     (by decide) (by decide)⟩

/-! ## C5, C10: label ACK retry loop -/

/-- If no read in the trace carries a matching valid ACK, the wait loop
reports failure. -/
theorem uart_wait_no_ack (seq timeout : Nat) (reads : List uart_read_t) (elapsed : Nat)
    (hno : ∀ r ∈ reads, is_matching_ack seq r.bytes = false) :
    (uart_wait_for_ack seq timeout reads elapsed).1 = false := by
  induction reads generalizing elapsed with
  | nil => rfl
  | cons r rest ih =>
    simp only [uart_wait_for_ack]
    split
    · rfl
    · rw [hno r (List.mem_cons_self r rest)]
      simp only [Bool.false_eq_true, if_false]
      exact ih _ fun x hx => hno x (List.mem_cons_of_mem r hx)

/-- The wait loop never runs past the timeout by more than one in-flight
read: if every read takes at most `D` and the loop starts within the
bound, the exit time is at most `timeout + D`. -/
theorem uart_wait_elapsed_le (seq timeout D : Nat) :
    ∀ (reads : List uart_read_t) (elapsed : Nat),
    (∀ r ∈ reads, r.dur ≤ D) → elapsed ≤ timeout + D →
    (uart_wait_for_ack seq timeout reads elapsed).2 ≤ timeout + D := by
  intro reads
  induction reads with
  | nil => exact fun elapsed _ he => he
  | cons r rest ih =>
    intro elapsed hd he
    have hdur : r.dur ≤ D := hd r (List.mem_cons_self r rest)
    simp only [uart_wait_for_ack]
    split
    · exact he
    · rename_i hguard
      split
      · omega
      · exact ih _ (fun x hx => hd x (List.mem_cons_of_mem r hx)) (by omega)

/-- The retry loop with a silent (never-acknowledging) peer: failure,
exactly `n` attempts, and total time at most
`n * (timeout + D + backoff)`. -/
theorem uart_attempts_no_ack (seq timeout D : Nat) (n : Nat) :
    ∀ (traces : List (List uart_read_t)),
    (∀ tr ∈ traces, ∀ r ∈ tr, is_matching_ack seq r.bytes = false) →
    (∀ tr ∈ traces, ∀ r ∈ tr, r.dur ≤ D) →
    (uart_send_attempts seq timeout n traces).1 = false ∧
    (uart_send_attempts seq timeout n traces).2.2 = n ∧
    (uart_send_attempts seq timeout n traces).2.1 ≤
      n * (timeout + D + RETRY_BACKOFF_MS) := by
  induction n with
  | zero => exact fun traces _ _ => ⟨rfl, rfl, by simp [uart_send_attempts]⟩
  | succ n ih =>
    intro traces hno hd
    have hhead : ∀ r ∈ traces.headD [], is_matching_ack seq r.bytes = false := by
      cases traces with
      | nil => simp
      | cons t ts => exact hno t (List.mem_cons_self t ts)
    have hheadd : ∀ r ∈ traces.headD [], r.dur ≤ D := by
      cases traces with
      | nil => simp
      | cons t ts => exact hd t (List.mem_cons_self t ts)
    have hw1 : (uart_wait_for_ack seq timeout (traces.headD []) 0).1 = false :=
      uart_wait_no_ack seq timeout _ 0 hhead
    have hw2 : (uart_wait_for_ack seq timeout (traces.headD []) 0).2 ≤ timeout + D :=
      uart_wait_elapsed_le seq timeout D _ 0 hheadd (by omega)
    have htl1 : ∀ tr ∈ traces.tail, ∀ r ∈ tr, is_matching_ack seq r.bytes = false :=
      fun tr htr => hno tr (List.mem_of_mem_tail htr)
    have htl2 : ∀ tr ∈ traces.tail, ∀ r ∈ tr, r.dur ≤ D :=
      fun tr htr => hd tr (List.mem_of_mem_tail htr)
    obtain ⟨h1, h2, h3⟩ := ih traces.tail htl1 htl2
    simp only [uart_send_attempts, hw1, Bool.false_eq_true, if_false]
    refine ⟨h1, by rw [h2], ?_⟩
    have hexp : (n + 1) * (timeout + D + RETRY_BACKOFF_MS) =
        (timeout + D + RETRY_BACKOFF_MS) + n * (timeout + D + RETRY_BACKOFF_MS) := by ring
    rw [hexp]
    have : RETRY_BACKOFF_MS = 10 := rfl
    omega

/-- C5 counterexample: with a silent peer answering every poll in the
full 10 ms driver tick, `uart_send_label_with_ack` blocks for
3×100 ms of ACK waits plus 3×10 ms of backoff = 330 ms, which exceeds
`retries × timeout` = 300 ms — so the claimed bound
"retries times timeout" does not hold as stated. -/
theorem spec_c5_counterexample :
    uart_send_label_with_ack 7 idle_traces = (false, 7, 330, 3) ∧
    MAX_RETRIES * ACK_TIMEOUT_MS = 300 ∧
    ¬((uart_send_label_with_ack 7 idle_traces).2.2.1 ≤ MAX_RETRIES * ACK_TIMEOUT_MS) := by
  exact ⟨by decide, by decide, by decide⟩

/-- C5 (amended): if no valid matching ACK ever arrives,
`uart_send_label_with_ack` performs exactly the fixed `MAX_RETRIES = 3`
attempts and returns false, and — when each `uart_read_bytes` poll takes
at most `D` — its total blocking time is bounded by
`retries × (timeout + D + backoff)`; in particular it never blocks
indefinitely. -/
theorem spec_c5_ack_retry_bound (seq D : Nat) (traces : List (List uart_read_t))
    (hno : ∀ tr ∈ traces, ∀ r ∈ tr, is_matching_ack seq r.bytes = false)
    (hd : ∀ tr ∈ traces, ∀ r ∈ tr, r.dur ≤ D) :
    (uart_send_label_with_ack seq traces).1 = false ∧
    (uart_send_label_with_ack seq traces).2.2.2 = MAX_RETRIES ∧
    (uart_send_label_with_ack seq traces).2.2.1 ≤
      MAX_RETRIES * (ACK_TIMEOUT_MS + D + RETRY_BACKOFF_MS) := by
  obtain ⟨h1, h2, h3⟩ := uart_attempts_no_ack seq ACK_TIMEOUT_MS D MAX_RETRIES traces hno hd
  exact ⟨by simp [uart_send_label_with_ack, h1],
         by simp [uart_send_label_with_ack, h2],
         by simpa [uart_send_label_with_ack] using h3⟩

/-- Witness for the amended C5 bound at the concrete silent-peer trace. -/
theorem spec_c5_witness :
    (uart_send_label_with_ack 7 idle_traces).1 = false ∧
    (uart_send_label_with_ack 7 idle_traces).2.2.1 ≤
      MAX_RETRIES * (ACK_TIMEOUT_MS + 10 + RETRY_BACKOFF_MS) := by
  have h := spec_c5_ack_retry_bound 7 10 idle_traces (by decide) (by decide)
  exact ⟨h.1, h.2.2⟩

/-- C10: when `uart_send_label_with_ack` fails, the module sequence
counter is unchanged (so the next call matches ACKs against the same
sequence and behaves identically); the counter is incremented (mod 2^16)
only when a matching ACK was received. -/
theorem spec_c10_sequence_number (seq : Nat) (traces : List (List uart_read_t)) :
    ((uart_send_label_with_ack seq traces).1 = false →
      (uart_send_label_with_ack seq traces).2.1 = seq) ∧
    ((uart_send_label_with_ack seq traces).1 = true →
      (uart_send_label_with_ack seq traces).2.1 = (seq + 1) % UINT16_MOD) ∧
    ((uart_send_label_with_ack seq traces).1 = false → ∀ traces2,
      uart_send_label_with_ack (uart_send_label_with_ack seq traces).2.1 traces2 =
        uart_send_label_with_ack seq traces2) := by
  cases hr : (uart_send_attempts seq ACK_TIMEOUT_MS MAX_RETRIES traces).1 with
  | false => simp [uart_send_label_with_ack, hr]
  | true => simp [uart_send_label_with_ack, hr]

/-- Witness for C10: a failed call leaves the counter at its value. -/
theorem spec_c10_witness :
    (uart_send_label_with_ack 9 idle_traces).2.1 = 9 :=
  (spec_c10_sequence_number 9 idle_traces).1 (by decide)

/-! ## C3, C7, C9: window extraction -/

/-- With too few samples buffered, `extract_window` changes nothing and
emits nothing. -/
theorem extract_window_none (s : acq_state) (now : Nat)
    (h : available_samples s < WINDOW_SIZE) :
    extract_window now s = (s, none) := by
  rw [extract_window, if_pos h]

/-- With no recorded overrun, `extract_window` copies from the current
read index and advances it by `WINDOW_OVERLAP`. -/
theorem extract_window_normal (s : acq_state) (now : Nat)
    (h : WINDOW_SIZE ≤ available_samples s) (hov : s.buffer_overruns = 0) :
    (extract_window now s).1.read_idx =
      (s.read_idx + WINDOW_OVERLAP) % CIRCULAR_BUFFER_SIZE ∧
    (extract_window now s).2.map (fun w => w.samples) =
      some (List.ofFn fun i : Fin WINDOW_SIZE =>
        s.circular_buffer ((s.read_idx + i.val) % CIRCULAR_BUFFER_SIZE)) := by
  have hlt := not_lt.mpr h
  simp only [extract_window, if_neg hlt, hov, lt_self_iff_false, reduceIte]
  split
  · split <;> exact ⟨rfl, by simp only [Option.map_some']⟩
  · exact ⟨rfl, by simp only [Option.map_some']⟩

/-- With a recorded overrun, `extract_window` first resets the read index
to `(write_idx - WINDOW_SIZE) mod CIRCULAR_BUFFER_SIZE`, copies from the
reset position, and advances from there. -/
theorem extract_window_overrun (s : acq_state) (now : Nat)
    (h : WINDOW_SIZE ≤ available_samples s) (hov : 0 < s.buffer_overruns) :
    (extract_window now s).1.read_idx =
      ((s.write_idx + CIRCULAR_BUFFER_SIZE - WINDOW_SIZE) % CIRCULAR_BUFFER_SIZE
        + WINDOW_OVERLAP) % CIRCULAR_BUFFER_SIZE ∧
    (extract_window now s).2.map (fun w => w.samples) =
      some (List.ofFn fun i : Fin WINDOW_SIZE =>
        s.circular_buffer
          (((s.write_idx + CIRCULAR_BUFFER_SIZE - WINDOW_SIZE) % CIRCULAR_BUFFER_SIZE
            + i.val) % CIRCULAR_BUFFER_SIZE)) := by
  have hlt := not_lt.mpr h
  simp only [extract_window, if_neg hlt, if_pos hov]
  split
  · split <;> exact ⟨rfl, by simp only [Option.map_some']⟩
  · exact ⟨rfl, by simp only [Option.map_some']⟩

/-- A successful extraction stamps the current window counter as the id
and post-increments the counter (`uint32_t`). -/
theorem extract_window_emit (s : acq_state) (now : Nat)
    (h : WINDOW_SIZE ≤ available_samples s) :
    (extract_window now s).2.map (fun w => w.window_id) = some s.window_counter ∧
    (extract_window now s).1.window_counter = (s.window_counter + 1) % UINT32_MOD := by
  have hlt := not_lt.mpr h
  simp only [extract_window, if_neg hlt]
  split
  · split <;> exact ⟨by simp only [Option.map_some'], rfl⟩
  · exact ⟨by simp only [Option.map_some'], rfl⟩

/-- A failed non-blocking push onto a full window queue increments the
overrun counter. -/
theorem extract_window_queue_full (s : acq_state) (now : Nat)
    (h : WINDOW_SIZE ≤ available_samples s) (hrun : s.capture_running = true)
    (hq : WINDOW_QUEUE_LENGTH ≤ s.window_queue.length) :
    (extract_window now s).1.buffer_overruns = s.buffer_overruns + 1 := by
  have hlt := not_lt.mpr h
  have hq' := not_lt.mpr hq
  simp only [extract_window, if_neg hlt, hrun, if_true, if_neg hq']

/-- C3 counterexample: at a state with one recorded buffer overrun,
512 available samples, read index 0 and buffer contents `i % 4096`, the
extracted window starts at sample 256 (the reset position), not at the
entry read index 0, and the read index advances to 384, not to
`(0 + WINDOW_OVERLAP) % CIRCULAR_BUFFER_SIZE = 128` — so the claimed
copy-from-`read_idx` / advance-by-`WINDOW_OVERLAP` behaviour fails as
stated once an overrun has been recorded. -/
theorem spec_c3_counterexample :
    WINDOW_SIZE ≤ available_samples overrun_demo ∧
    (extract_window 0 overrun_demo).2.map (fun w => w.samples.getD 0 0) = some 256 ∧
    overrun_demo.circular_buffer
      ((overrun_demo.read_idx + 0) % CIRCULAR_BUFFER_SIZE) = 0 ∧
    (extract_window 0 overrun_demo).1.read_idx = 384 ∧
    (overrun_demo.read_idx + WINDOW_OVERLAP) % CIRCULAR_BUFFER_SIZE = 128 ∧
    (384 : Nat) ≠ 128 := by
  exact ⟨by decide, by decide, by decide, by decide, by decide, by decide⟩

/-- C3 (amended): on each invocation `extract_window` computes the number
of available samples as `(write_idx - read_idx) mod CIRCULAR_BUFFER_SIZE`
and returns without extracting anything (leaving the whole state,
including the read index, unchanged) when fewer than `WINDOW_SIZE`
samples are available; otherwise — provided no buffer overrun has been
recorded (`buffer_overruns = 0`; after an overrun the read index is
first reset, see C9) — it copies exactly `WINDOW_SIZE` consecutive
samples starting at `read_idx` (with modulo wraparound) into a new
window and then advances `read_idx` by exactly `WINDOW_OVERLAP`, not by
`WINDOW_SIZE`. -/
theorem spec_c3_window_extraction (s : acq_state) (now : Nat)
    (hw : s.write_idx < CIRCULAR_BUFFER_SIZE) (hr : s.read_idx < CIRCULAR_BUFFER_SIZE)
    (hov : s.buffer_overruns = 0) :
    available_samples s =
      (s.write_idx + CIRCULAR_BUFFER_SIZE - s.read_idx) % CIRCULAR_BUFFER_SIZE ∧
    (available_samples s < WINDOW_SIZE → extract_window now s = (s, none)) ∧
    (WINDOW_SIZE ≤ available_samples s →
      (extract_window now s).1.read_idx =
        (s.read_idx + WINDOW_OVERLAP) % CIRCULAR_BUFFER_SIZE ∧
      WINDOW_OVERLAP ≠ WINDOW_SIZE ∧
      (extract_window now s).2.map (fun w => w.samples) =
        some (List.ofFn fun i : Fin WINDOW_SIZE =>
          s.circular_buffer ((s.read_idx + i.val) % CIRCULAR_BUFFER_SIZE))) := by
  refine ⟨?_, fun h => extract_window_none s now h, fun h => ?_⟩
  · simp only [available_samples, CIRCULAR_BUFFER_SIZE] at *
    split <;> omega
  · obtain ⟨h1, h2⟩ := extract_window_normal s now h hov
    exact ⟨h1, by decide, h2⟩

/-- Witness for the amended C3 at a concrete state with 512 available
samples and no overrun. -/
theorem spec_c3_witness :
    (extract_window 0 ready_demo).1.read_idx =
      (ready_demo.read_idx + WINDOW_OVERLAP) % CIRCULAR_BUFFER_SIZE :=
  ((spec_c3_window_extraction ready_demo 0 (by decide) (by decide) (by decide)).2.2
    (by decide)).1

/-- C9: once an overrun is recorded, every extraction with enough
available samples first resets the read index to
`(write_idx - WINDOW_SIZE) mod CIRCULAR_BUFFER_SIZE` and copies the
`WINDOW_SIZE` most recent samples from there, advancing the read index
relative to the reset position — overlap windowing relative to the
previous read position no longer applies; and a failed non-blocking push
onto the full 20-slot window queue increments the overrun counter
(thereby entering this mode). -/
theorem spec_c9_overrun_mode :
    (∀ (s : acq_state) (now : Nat), WINDOW_SIZE ≤ available_samples s →
      0 < s.buffer_overruns →
      (extract_window now s).2.map (fun w => w.samples) =
        some (List.ofFn fun i : Fin WINDOW_SIZE =>
          s.circular_buffer
            (((s.write_idx + CIRCULAR_BUFFER_SIZE - WINDOW_SIZE) % CIRCULAR_BUFFER_SIZE
              + i.val) % CIRCULAR_BUFFER_SIZE)) ∧
      (extract_window now s).1.read_idx =
        ((s.write_idx + CIRCULAR_BUFFER_SIZE - WINDOW_SIZE) % CIRCULAR_BUFFER_SIZE
          + WINDOW_OVERLAP) % CIRCULAR_BUFFER_SIZE) ∧
    (∀ (s : acq_state) (now : Nat), WINDOW_SIZE ≤ available_samples s →
      s.capture_running = true → WINDOW_QUEUE_LENGTH ≤ s.window_queue.length →
      (extract_window now s).1.buffer_overruns = s.buffer_overruns + 1) :=
  ⟨fun s now h hov =>
    ⟨(extract_window_overrun s now h hov).2, (extract_window_overrun s now h hov).1⟩,
   fun s now h hrun hq => extract_window_queue_full s now h hrun hq⟩

/-- Witness for C9: the overrun-reset at `overrun_demo` and the
queue-full increment at `full_queue_demo`. -/
theorem spec_c9_witness :
    (extract_window 0 overrun_demo).1.read_idx =
      ((overrun_demo.write_idx + CIRCULAR_BUFFER_SIZE - WINDOW_SIZE)
        % CIRCULAR_BUFFER_SIZE + WINDOW_OVERLAP) % CIRCULAR_BUFFER_SIZE ∧
    (extract_window 0 full_queue_demo).1.buffer_overruns =
      full_queue_demo.buffer_overruns + 1 :=
  ⟨(spec_c9_overrun_mode.1 overrun_demo 0 (by decide) (by decide)).2,
   spec_c9_overrun_mode.2 full_queue_demo 0 (by decide) (by decide) (by decide)⟩

/-- Every acquisition step either emits no window and leaves the window
counter unchanged, or emits exactly one window stamped with the current
counter and post-increments the counter mod 2^32. -/
theorem acq_step_emit (s : acq_state) (op : acq_op) :
    ((acq_step s op).2 = none ∧ (acq_step s op).1.window_counter = s.window_counter) ∨
    (∃ w, (acq_step s op).2 = some w ∧ w.window_id = s.window_counter ∧
      (acq_step s op).1.window_counter = (s.window_counter + 1) % UINT32_MOD) := by
  cases op with
  | store v =>
    left
    refine ⟨rfl, ?_⟩
    simp only [acq_step, store_sample]
    split <;> rfl
  | receive => exact Or.inl ⟨rfl, rfl⟩
  | extract now =>
    by_cases hav : available_samples s < WINDOW_SIZE
    · have h := extract_window_none s now hav
      left
      exact ⟨by simp [acq_step, h], by simp [acq_step, h]⟩
    · have h := extract_window_emit s now (not_lt.mp hav)
      obtain ⟨w, hw, hid⟩ := Option.map_eq_some'.mp h.1
      exact Or.inr ⟨w, hw, hid, h.2⟩

/-- The `k`-th window emitted along any operation sequence carries id
`(initial counter + k) mod 2^32`. -/
theorem run_acq_window_ids (ops : List acq_op) :
    ∀ (s : acq_state), s.window_counter < UINT32_MOD →
    ∀ k, k < (run_acq s ops).2.length →
      ((run_acq s ops).2.getD k dummy_window).window_id =
        (s.window_counter + k) % UINT32_MOD := by
  induction ops with
  | nil =>
    intro s hs k hk
    simp [run_acq] at hk
  | cons op ops ih =>
    intro s hs k hk
    rcases acq_step_emit s op with ⟨hnone, hcnt⟩ | ⟨w, hsome, hid, hcnt⟩
    · simp only [run_acq, hnone, Option.toList_none, List.nil_append] at hk ⊢
      rw [ih (acq_step s op).1 (by rw [hcnt]; exact hs) k hk, hcnt]
    · simp only [run_acq, hsome, Option.toList_some, List.singleton_append] at hk ⊢
      cases k with
      | zero =>
        simpa [hid] using (Nat.mod_eq_of_lt hs).symm
      | succ k =>
        have hm : (0 : Nat) < UINT32_MOD := by decide
        have hs2 : (acq_step s op).1.window_counter < UINT32_MOD := by
          rw [hcnt]; exact Nat.mod_lt _ hm
        have hk2 : k < (run_acq (acq_step s op).1 ops).2.length := by
          simpa using hk
        rw [List.getD_cons_succ, ih (acq_step s op).1 hs2 k hk2, hcnt]
        simp only [UINT32_MOD] at *
        omega

/-- C7: along any sequence of acquisition operations, the emitted windows
carry pairwise strictly increasing `window_id`s (hence never a duplicate)
— as long as the `uint32_t` window counter does not wrap, which the
bound `initial counter + number of emitted windows ≤ 2^32` expresses. -/
theorem spec_c7_window_id_monotone (s : acq_state) (ops : List acq_op)
    (h0 : s.window_counter < UINT32_MOD)
    (hlen : s.window_counter + (run_acq s ops).2.length ≤ UINT32_MOD) :
    List.Pairwise (fun a b => a.window_id < b.window_id) (run_acq s ops).2 := by
  rw [List.pairwise_iff_get]
  intro i j hij
  have hi := run_acq_window_ids ops s h0 i.val i.isLt
  have hj := run_acq_window_ids ops s h0 j.val j.isLt
  rw [List.getD_eq_get _ _ i.isLt] at hi
  rw [List.getD_eq_get _ _ j.isLt] at hj
  rw [hi, hj]
  have hij' : i.val < j.val := hij
  have hjl : j.val < (run_acq s ops).2.length := j.isLt
  simp only [UINT32_MOD] at *
  omega

/-- Witness for C7: two successive extractions from a buffered state emit
ids 0 and 1 in strictly increasing order. -/
theorem spec_c7_witness :
    List.Pairwise (fun a b => a.window_id < b.window_id)
      (run_acq ready_demo [acq_op.extract 0, acq_op.extract 1]).2 :=
  spec_c7_window_id_monotone ready_demo [acq_op.extract 0, acq_op.extract 1]
    (by decide) (by decide)

/-! ## C4: packet round-trip and single-bit error detection -/

/-- The CRC table has 256 entries. -/
theorem crc8_table_length : crc8_table.length = 256 := by rfl

/-- Every CRC table entry is a byte. -/
theorem crc8_table_mem_lt : ∀ x ∈ crc8_table, x < 256 := by decide

/-- The CRC table has no duplicate entries: multiplication by `x^8`
modulo the CRC polynomial `x^8 + x^2 + x + 1` is invertible, so the
table is a permutation of the byte values. -/
theorem crc8_table_nodup : crc8_table.Nodup := by decide

/-- One CRC step always produces a byte. -/
theorem crc8_step_lt (c b : Nat) : crc8_step c b < 256 := by
  unfold crc8_step
  by_cases h : c ^^^ b < crc8_table.length
  · rw [List.getD_eq_getElem _ _ h]
    exact crc8_table_mem_lt _ (List.getElem_mem h)
  · rw [List.getD_eq_default _ _ (not_lt.mp h)]
    decide

/-- A CRC fold from a byte state stays a byte. -/
theorem crc8_run_lt (l : List Nat) : ∀ c, c < 256 → l.foldl crc8_step c < 256 := by
  induction l with
  | nil => exact fun c hc => hc
  | cons b t ih =>
    intro c hc
    simpa only [List.foldl_cons] using ih _ (crc8_step_lt c b)

/-- Distinct byte indices read distinct table entries. -/
theorem crc8_table_getD_inj (i i' : Nat) (hi : i < 256) (hi' : i' < 256)
    (hne : i ≠ i') : crc8_table.getD i 0 ≠ crc8_table.getD i' 0 := by
  have hl : crc8_table.length = 256 := crc8_table_length
  rw [List.getD_eq_getElem _ _ (by omega), List.getD_eq_getElem _ _ (by omega)]
  intro he
  exact hne ((List.Nodup.getElem_inj_iff crc8_table_nodup).mp he)

/-- The CRC step is injective in the running state. -/
theorem crc8_step_state_inj (c c' b : Nat) (hc : c < 256) (hc' : c' < 256)
    (hb : b < 256) (hne : c ≠ c') : crc8_step c b ≠ crc8_step c' b := by
  unfold crc8_step
  refine crc8_table_getD_inj _ _ ?_ ?_ ?_
  · have : (256 : Nat) = 2 ^ 8 := by decide
    rw [this] at hc hb ⊢
    exact Nat.xor_lt_two_pow hc hb
  · have : (256 : Nat) = 2 ^ 8 := by decide
    rw [this] at hc' hb ⊢
    exact Nat.xor_lt_two_pow hc' hb
  · intro he
    exact hne (Nat.xor_left_inj.mp he)

/-- The CRC step is injective in the consumed byte. -/
theorem crc8_step_byte_inj (c b b' : Nat) (hc : c < 256) (hb : b < 256)
    (hb' : b' < 256) (hne : b ≠ b') : crc8_step c b ≠ crc8_step c b' := by
  unfold crc8_step
  refine crc8_table_getD_inj _ _ ?_ ?_ ?_
  · have : (256 : Nat) = 2 ^ 8 := by decide
    rw [this] at hc hb ⊢
    exact Nat.xor_lt_two_pow hc hb
  · have : (256 : Nat) = 2 ^ 8 := by decide
    rw [this] at hc hb' ⊢
    exact Nat.xor_lt_two_pow hc hb'
  · intro he
    exact hne (Nat.xor_right_inj.mp he)

/-- Distinct byte states are never merged by folding further bytes. -/
theorem crc8_run_inj (l : List Nat) : ∀ c c', c < 256 → c' < 256 →
    (∀ x ∈ l, x < 256) → c ≠ c' →
    l.foldl crc8_step c ≠ l.foldl crc8_step c' := by
  induction l with
  | nil => exact fun c c' _ _ _ hne => hne
  | cons b t ih =>
    intro c c' hc hc' hl hne
    simp only [List.foldl_cons]
    exact ih _ _ (crc8_step_lt c b) (crc8_step_lt c' b)
      (fun x hx => hl x (List.mem_cons_of_mem b hx))
      (crc8_step_state_inj c c' b hc hc' (hl b (List.mem_cons_self b t)) hne)

/-- Changing exactly one byte of a message always changes its CRC8. -/
theorem crc8_single_byte_change (pre suf : List Nat) (b b' : Nat)
    (hb : b < 256) (hb' : b' < 256) (hsuf : ∀ x ∈ suf, x < 256) (hne : b ≠ b') :
    calculate_crc8 (pre ++ b :: suf) ≠ calculate_crc8 (pre ++ b' :: suf) := by
  unfold calculate_crc8
  rw [List.foldl_append, List.foldl_append, List.foldl_cons, List.foldl_cons]
  have hs : pre.foldl crc8_step 0 < 256 := crc8_run_lt pre 0 (by decide)
  exact crc8_run_inj suf _ _ (crc8_step_lt _ b) (crc8_step_lt _ b') hsuf
    (crc8_step_byte_inj _ b b' hs hb hb' hne)

/-- Any list splits at a valid index into prefix, indexed element and
suffix. -/
theorem list_split_at (l : List Nat) (j : Nat) (hj : j < l.length) :
    l = l.take j ++ l.getD j 0 :: l.drop (j + 1) := by
  conv_lhs => rw [← List.take_append_drop j l]
  rw [List.getD_eq_getElem _ _ hj]
  rw [List.drop_eq_getElem_cons hj]

/-- The 41 CRC-covered wire bytes of a valid packet are all bytes. -/
theorem packet_bytes_lt (p : uart_packet_t) (hv : valid_packet p) :
    ∀ x ∈ packet_bytes p, x < 256 := by
  obtain ⟨h1, h2, h3, h4, h5, h6, h7⟩ := hv
  intro x hx
  simp only [packet_bytes, List.mem_cons] at hx
  simp only [UINT8_MOD] at h2 h5 h7
  rcases hx with rfl | rfl | rfl | rfl | rfl | rfl | rfl | rfl | rfl | hx
  · omega
  · omega
  · omega
  · omega
  · omega
  · omega
  · omega
  · omega
  · omega
  · exact lt_of_lt_of_le (h7 x hx) (by norm_num)

/-- A valid packet has a 41-byte CRC-covered region. -/
theorem packet_bytes_length (p : uart_packet_t) (h6 : p.payload.length = 32) :
    (packet_bytes p).length = 41 := by
  simp [packet_bytes, h6]

/-- Decoding inverts encoding on valid packets. -/
theorem decode_encode_roundtrip (p : uart_packet_t) (hv : valid_packet p) :
    decode_packet (encode_packet p) = some p := by
  have hblt := packet_bytes_lt p hv
  obtain ⟨h1, h2, h3, h4, h5, h6, h7⟩ := hv
  have hbl : (packet_bytes p).length = 41 := packet_bytes_length p h6
  have htake : (encode_packet p).take 41 = packet_bytes p := by
    rw [encode_packet, List.take_append_of_le_length (by rw [hbl])]
    rw [show (41 : Nat) = (packet_bytes p).length from hbl.symm, List.take_length]
  have h41 : (encode_packet p).getD 41 0 = calculate_crc8 (packet_bytes p) := by
    rw [encode_packet, List.getD_append_right _ _ _ _ (by rw [hbl]), hbl]
    rfl
  have hlen42 : (encode_packet p).length = 42 := by
    rw [encode_packet]
    simp [hbl]
  have hgd : ∀ i, i < 41 → (encode_packet p).getD i 0 = (packet_bytes p).getD i 0 := by
    intro i hi
    rw [encode_packet, List.getD_append _ _ _ _ (by rw [hbl]; omega)]
  have hframe : packet_frame_ok (encode_packet p) = true := by
    rw [packet_frame_ok, htake, h41, hlen42, hgd 0 (by omega)]
    rw [show (packet_bytes p).getD 0 0 = p.sync_byte from rfl, h1]
    simp
  have hdrop : (encode_packet p).drop 9 =
      p.payload ++ [calculate_crc8 (packet_bytes p)] := by
    rw [encode_packet, List.drop_append_of_le_length (by rw [hbl]; omega)]
    rfl
  rw [decode_packet, if_pos hframe]
  simp only [UINT16_MOD, UINT8_MOD, UINT32_MOD] at h2 h3 h4 h5
  obtain ⟨ps, pt, pq, pts, ppl, ppy⟩ := p
  dsimp only at h1 h2 h3 h4 h5 h6 h7
  simp only [Option.some.injEq, uart_packet_t.mk.injEq]
  simp only [packet_bytes] at hgd hdrop
  refine ⟨?_, ?_, ?_, ?_, ?_, ?_⟩
  · rw [hgd 0 (by omega)]
    rfl
  · rw [hgd 1 (by omega)]
    rfl
  · rw [hgd 2 (by omega), hgd 3 (by omega)]
    show pq % 256 + 256 * (pq / 256 % 256) = pq
    omega
  · rw [hgd 4 (by omega), hgd 5 (by omega), hgd 6 (by omega), hgd 7 (by omega)]
    show pts % 256 + 2 ^ 8 * (pts / 2 ^ 8 % 256) + 2 ^ 16 * (pts / 2 ^ 16 % 256) +
        2 ^ 24 * (pts / 2 ^ 24 % 256) = pts
    omega
  · rw [hgd 8 (by omega)]
    rfl
  · rw [hdrop, List.take_append_of_le_length (by rw [h6])]
    rw [show (32 : Nat) = ppy.length from h6.symm, List.take_length]

/-- Flipping any single bit of an encoded valid packet is rejected by the
receiver's frame validation. -/
theorem flip_bit_detected (p : uart_packet_t) (j k : Nat) (hv : valid_packet p)
    (hj : j < 42) (hk : k < 8) :
    packet_frame_ok (flip_bit (encode_packet p) j k) = false := by
  have hblt := packet_bytes_lt p hv
  have hbl : (packet_bytes p).length = 41 := packet_bytes_length p hv.2.2.2.2.2.1
  have hm : 1 <<< k = 2 ^ k := by rw [Nat.shiftLeft_eq, one_mul]
  have hmlt : 1 <<< k < 256 := by
    rw [hm, show (256 : Nat) = 2 ^ 8 from by decide]
    exact Nat.pow_lt_pow_right (by decide) hk
  have hm0 : 1 <<< k ≠ 0 := by
    rw [hm]
    positivity
  have hxne : ∀ b : Nat, b ^^^ 1 <<< k ≠ b := by
    intro b he
    apply hm0
    have h' : b ^^^ 1 <<< k = b ^^^ 0 := by rw [Nat.xor_zero]; exact he
    exact Nat.xor_right_inj.mp h'
  by_cases hj41 : j = 41
  · subst hj41
    have htake : (encode_packet p).take 41 = packet_bytes p := by
      rw [encode_packet, List.take_append_of_le_length (by rw [hbl])]
      rw [show (41 : Nat) = (packet_bytes p).length from hbl.symm, List.take_length]
    have h41 : (encode_packet p).getD 41 0 = calculate_crc8 (packet_bytes p) := by
      rw [encode_packet, List.getD_append_right _ _ _ _ (by rw [hbl]), hbl]
      rfl
    have hdrop : (encode_packet p).drop 42 = [] := by
      apply List.drop_eq_nil_of_le
      rw [encode_packet]
      simp [hbl]
    have hflip : flip_bit (encode_packet p) 41 k =
        packet_bytes p ++ [calculate_crc8 (packet_bytes p) ^^^ 1 <<< k] := by
      rw [flip_bit, htake, h41, hdrop]
    rw [hflip, packet_frame_ok]
    have ht : (packet_bytes p ++ [calculate_crc8 (packet_bytes p) ^^^ 1 <<< k]).take 41 =
        packet_bytes p := by
      rw [List.take_append_of_le_length (by rw [hbl])]
      rw [show (41 : Nat) = (packet_bytes p).length from hbl.symm, List.take_length]
    have hg : (packet_bytes p ++ [calculate_crc8 (packet_bytes p) ^^^ 1 <<< k]).getD 41 0 =
        calculate_crc8 (packet_bytes p) ^^^ 1 <<< k := by
      rw [List.getD_append_right _ _ _ _ (by rw [hbl]), hbl]
      rfl
    rw [ht, hg]
    have : (calculate_crc8 (packet_bytes p) ==
        calculate_crc8 (packet_bytes p) ^^^ 1 <<< k) = false := by
      simp only [beq_eq_false_iff_ne, ne_eq]
      exact fun he => hxne _ he.symm
    rw [this, Bool.and_false]
  · have hjle : j < 41 := by omega
    have hjb : j < (packet_bytes p).length := by rw [hbl]; omega
    have htake : (encode_packet p).take j = (packet_bytes p).take j := by
      rw [encode_packet, List.take_append_of_le_length (by rw [hbl]; omega)]
    have hgd : (encode_packet p).getD j 0 = (packet_bytes p).getD j 0 := by
      rw [encode_packet, List.getD_append _ _ _ _ hjb]
    have hdrop : (encode_packet p).drop (j + 1) =
        (packet_bytes p).drop (j + 1) ++ [calculate_crc8 (packet_bytes p)] := by
      rw [encode_packet, List.drop_append_of_le_length (by rw [hbl]; omega)]
    have hflip : flip_bit (encode_packet p) j k =
        ((packet_bytes p).take j ++ ((packet_bytes p).getD j 0 ^^^ 1 <<< k) ::
          (packet_bytes p).drop (j + 1)) ++ [calculate_crc8 (packet_bytes p)] := by
      rw [flip_bit, htake, hgd, hdrop]
      simp [List.append_assoc]
    have hnlen : ((packet_bytes p).take j ++ ((packet_bytes p).getD j 0 ^^^ 1 <<< k) ::
        (packet_bytes p).drop (j + 1)).length = 41 := by
      simp only [List.length_append, List.length_take, List.length_cons,
        List.length_drop, hbl]
      omega
    have hbj : (packet_bytes p).getD j 0 < 256 := by
      have hmem : (packet_bytes p).getD j 0 ∈ packet_bytes p := by
        rw [List.getD_eq_getElem _ _ hjb]
        exact List.getElem_mem hjb
      exact hblt _ hmem
    have hcrcne : calculate_crc8 ((packet_bytes p).take j ++
        ((packet_bytes p).getD j 0 ^^^ 1 <<< k) :: (packet_bytes p).drop (j + 1)) ≠
        calculate_crc8 (packet_bytes p) := by
      conv_rhs => rw [list_split_at (packet_bytes p) j hjb]
      refine crc8_single_byte_change _ _ _ _ ?_ hbj ?_ (hxne _)
      · rw [show (256 : Nat) = 2 ^ 8 from by decide] at hbj hmlt ⊢
        exact Nat.xor_lt_two_pow hbj hmlt
      · exact fun x hx => hblt x (List.drop_subset _ _ hx)
    rw [hflip, packet_frame_ok]
    have ht : (((packet_bytes p).take j ++ ((packet_bytes p).getD j 0 ^^^ 1 <<< k) ::
        (packet_bytes p).drop (j + 1)) ++ [calculate_crc8 (packet_bytes p)]).take 41 =
        (packet_bytes p).take j ++ ((packet_bytes p).getD j 0 ^^^ 1 <<< k) ::
          (packet_bytes p).drop (j + 1) := by
      rw [List.take_append_of_le_length (by rw [hnlen])]
      rw [show (41 : Nat) = ((packet_bytes p).take j ++
        ((packet_bytes p).getD j 0 ^^^ 1 <<< k) ::
        (packet_bytes p).drop (j + 1)).length from hnlen.symm, List.take_length]
    have hg : (((packet_bytes p).take j ++ ((packet_bytes p).getD j 0 ^^^ 1 <<< k) ::
        (packet_bytes p).drop (j + 1)) ++ [calculate_crc8 (packet_bytes p)]).getD 41 0 =
        calculate_crc8 (packet_bytes p) := by
      rw [List.getD_append_right _ _ _ _ (by rw [hnlen]), hnlen]
      rfl
    rw [ht, hg]
    have : (calculate_crc8 ((packet_bytes p).take j ++
        ((packet_bytes p).getD j 0 ^^^ 1 <<< k) :: (packet_bytes p).drop (j + 1)) ==
        calculate_crc8 (packet_bytes p)) = false := by
      simp only [beq_eq_false_iff_ne, ne_eq]
      exact hcrcne
    rw [this, Bool.and_false]

/-- C4: decoding the encoding of any valid 42-byte packet yields the
original packet, and flipping any single bit (byte `j < 42`, bit `k < 8`)
of a validly encoded packet makes the receiver's validation (sync byte
plus CRC8 over the first 41 bytes against the trailing byte) reject the
buffer — single-bit errors are always detected. -/
theorem spec_c4_codec :
    (∀ p : uart_packet_t, valid_packet p →
      decode_packet (encode_packet p) = some p) ∧
    (∀ (p : uart_packet_t) (j k : Nat), valid_packet p → j < 42 → k < 8 →
      packet_frame_ok (flip_bit (encode_packet p) j k) = false) :=
  ⟨decode_encode_roundtrip, flip_bit_detected⟩

/-- Witness for C4 at a concrete label packet, byte 5, bit 3. -/
theorem spec_c4_witness :
    decode_packet (encode_packet demo_packet) = some demo_packet ∧
    packet_frame_ok (flip_bit (encode_packet demo_packet) 5 3) = false :=
  ⟨spec_c4_codec.1 demo_packet (by decide),
   spec_c4_codec.2 demo_packet 5 3 (by decide) (by decide) (by decide)⟩

/-! ## C8, C2, C1: feature statistics on degenerate windows and the
spec-modelled classification engine -/

/-- Sum of the real casts of a constant sample list. -/
theorem sum_map_cast_replicate (n c : Nat) :
    ((List.replicate n c).map fun s : Nat => (s : ℝ)).sum = n * c := by
  simp only [List.map_replicate, List.sum_replicate, nsmul_eq_mul]

/-- The mean of a constant window is the constant. -/
theorem mean_value_replicate (n c : Nat) (hn : n ≠ 0) :
    calculate_mean_value (List.replicate n c) = c := by
  rw [calculate_mean_value, sum_map_cast_replicate, List.length_replicate]
  exact mul_div_cancel_left₀ _ (by exact_mod_cast hn)

/-- The variance of a constant window about its mean is 0. -/
theorem variance_value_replicate (n c : Nat) :
    calculate_variance_value (List.replicate n c) c = 0 := by
  rw [calculate_variance_value]
  simp only [List.map_replicate, sub_self, zero_mul, List.sum_replicate,
    smul_zero, zero_div]

/-- DC removal of a constant window yields the all-zero window. -/
theorem remove_dc_replicate (n c : Nat) (hn : n ≠ 0) :
    remove_dc_offset (List.replicate n c) = List.replicate n 0 := by
  rw [remove_dc_offset]
  rw [mean_value_replicate n c hn]
  simp only [List.map_replicate, sub_self]

/-- An all-zero window has no zero crossings under the strict/non-strict
crossing test. -/
theorem count_zero_crossings_all_zero :
    ∀ l : List ℝ, (∀ x ∈ l, x = 0) → count_zero_crossings l = 0 := by
  intro l
  induction l with
  | nil => intro _; rfl
  | cons a t ih =>
    intro h
    cases t with
    | nil => rfl
    | cons b t2 =>
      have ha := h a (List.mem_cons_self a _)
      have hb := h b (List.mem_cons_of_mem a (List.mem_cons_self b t2))
      subst ha
      rw [count_zero_crossings, if_neg (by rw [hb]; norm_num), zero_add]
      exact ih fun x hx => h x (List.mem_cons_of_mem _ hx)

/-- The zero-crossing rate of a constant window is 0. -/
theorem zcr_replicate (n c : Nat) :
    calculate_zero_crossing_rate (List.replicate n c) = 0 := by
  rw [calculate_zero_crossing_rate]
  split
  · rfl
  · rename_i hlen
    rw [List.length_replicate] at hlen
    rw [remove_dc_replicate n c (by omega)]
    rw [count_zero_crossings_all_zero _ (fun x hx => List.eq_of_mem_replicate hx)]
    simp

/-- The RMS of a constant window is the constant. -/
theorem rms_replicate (n c : Nat) (hn : n ≠ 0) :
    calculate_rms (List.replicate n c) = c := by
  have h1 : ((List.replicate n c).map fun s : Nat => (s : ℝ) * (s : ℝ)).sum
      = n * ((c : ℝ) * c) := by
    simp only [List.map_replicate, List.sum_replicate, nsmul_eq_mul]
  rw [calculate_rms, h1, List.length_replicate,
    mul_div_cancel_left₀ _ (show ((n : ℝ)) ≠ 0 by exact_mod_cast hn)]
  exact Real.sqrt_mul_self (Nat.cast_nonneg c)

/-- Folding `Nat.min` over copies of the accumulator is the identity. -/
theorem foldl_min_const (c : Nat) : ∀ n, (List.replicate n c).foldl Nat.min c = c := by
  intro n
  induction n with
  | zero => rfl
  | succ m ih => simpa [List.replicate_succ, Nat.min_self] using ih

/-- Folding `Nat.max` over copies of the accumulator is the identity. -/
theorem foldl_max_const (c : Nat) : ∀ n, (List.replicate n c).foldl Nat.max c = c := by
  intro n
  induction n with
  | zero => rfl
  | succ m ih => simpa [List.replicate_succ, Nat.max_self] using ih

/-- The minimum of a constant window is the constant. -/
theorem min_sample_replicate (n c : Nat) (hn : n ≠ 0) :
    min_sample (List.replicate n c) = c := by
  obtain ⟨m, rfl⟩ := Nat.exists_eq_succ_of_ne_zero hn
  rw [min_sample]
  simpa [List.replicate_succ, Nat.min_self] using foldl_min_const c m

/-- The maximum of a constant window is the constant. -/
theorem max_sample_replicate (n c : Nat) (hn : n ≠ 0) :
    max_sample (List.replicate n c) = c := by
  obtain ⟨m, rfl⟩ := Nat.exists_eq_succ_of_ne_zero hn
  rw [max_sample]
  simpa [List.replicate_succ, Nat.max_self] using foldl_max_const c m

/-- The crest factor of a constant positive window is 0 (zero
peak-to-peak). -/
theorem crest_factor_replicate (n c : Nat) (hn : n ≠ 0) (hc : 1 ≤ c) :
    calculate_crest_factor (List.replicate n c) (c : ℝ) = 0 := by
  have hc1 : (1 : ℝ) ≤ (c : ℝ) := by exact_mod_cast hc
  have hgd : ¬((c : ℝ) < 1 / 1000000) := by push_neg; linarith
  rw [calculate_crest_factor, if_neg (by simp [hn]), if_neg hgd, if_neg hgd]
  rw [min_sample_replicate n c hn, max_sample_replicate n c hn]
  simp

/-- The form factor of a constant positive window is 1, not 0. -/
theorem form_factor_replicate (n c : Nat) (hn : n ≠ 0) (hc : 1 ≤ c) :
    calculate_form_factor (List.replicate n c) (c : ℝ) = 1 := by
  have hc1 : (1 : ℝ) ≤ (c : ℝ) := by exact_mod_cast hc
  have hgd : ¬((c : ℝ) < 1 / 1000000) := by push_neg; linarith
  have habs : ((List.replicate n c).map fun s : Nat => |(s : ℝ)|).sum = n * c := by
    simp only [List.map_replicate, Nat.abs_cast, List.sum_replicate, nsmul_eq_mul]
  have hmean : ((List.replicate n c).map fun s : Nat => |(s : ℝ)|).sum /
      ((List.replicate n c).length : ℝ) = c := by
    rw [habs, List.length_replicate]
    exact mul_div_cancel_left₀ _ (by exact_mod_cast hn)
  rw [calculate_form_factor, if_neg (by simp [hn]), if_neg hgd, hmean]
  have hcpos : (0 : ℝ) < c := by linarith
  simp only [if_neg hgd]
  exact div_self (ne_of_gt hcpos)

/-- One periodicity lag step is the identity on a constant window: the
autocorrelation norms vanish. -/
theorem periodicity_step_replicate (n c : Nat) (acc : ℝ) (lag : Nat) :
    periodicity_step (List.replicate n c) c acc lag = acc := by
  have hz : ∀ (i : Nat), i < (List.replicate n c).length - lag →
      ((List.replicate n c).getD i 0 : ℝ) - c = 0 := by
    intro i hi
    rw [List.length_replicate] at hi
    rw [List.getD_eq_getElem _ _ (by rw [List.length_replicate]; omega),
      List.getElem_replicate]
    simp
  have h1 : ((List.range ((List.replicate n c).length - lag)).map fun i : Nat =>
      (((List.replicate n c).getD i 0 : ℝ) - c) *
      (((List.replicate n c).getD i 0 : ℝ) - c)).sum = 0 := by
    apply List.sum_eq_zero
    intro x hx
    simp only [List.mem_map, List.mem_range] at hx
    obtain ⟨i, hi, rfl⟩ := hx
    rw [hz i hi, zero_mul]
  rw [periodicity_step]
  simp only [h1, lt_self_iff_false, false_and, if_false]

/-- The periodicity fold is the identity on a constant window. -/
theorem foldl_periodicity_step_replicate (n c : Nat) :
    ∀ (lags : List Nat) (acc : ℝ),
    lags.foldl (periodicity_step (List.replicate n c) c) acc = acc := by
  intro lags
  induction lags with
  | nil => exact fun acc => rfl
  | cons lag rest ih =>
    intro acc
    rw [List.foldl_cons, periodicity_step_replicate]
    exact ih acc

/-- The periodicity of a constant window is 0. -/
theorem periodicity_replicate (n c : Nat) :
    calculate_periodicity (List.replicate n c) = 0 := by
  rw [calculate_periodicity]
  split
  · rfl
  · rename_i hlen
    rw [List.length_replicate] at hlen
    rw [mean_value_replicate n c (by omega)]
    exact foldl_periodicity_step_replicate n c _ 0

/-- The harmonic-ratio heuristic yields its square-like bucket 0.3 on a
constant window (zero crossing rate 0). -/
theorem harmonic_replicate (n c : Nat) :
    calculate_harmonic_ratio (List.replicate n c) = 0.3 := by
  rw [calculate_harmonic_ratio, zcr_replicate]
  norm_num

/-- The min/max scan never leaves a constant state on constant input. -/
theorem min_max_step_foldl_const (c : Nat) :
    ∀ (l : List (Nat × Nat)) (st : min_max_scan_t), (∀ p ∈ l, p.2 = c) →
    st.min_val = c → st.max_val = c →
    (l.foldl min_max_step st).min_val = c ∧ (l.foldl min_max_step st).max_val = c := by
  intro l
  induction l with
  | nil => exact fun st _ h1 h2 => ⟨h1, h2⟩
  | cons p rest ih =>
    intro st h h1 h2
    have hp := h p (List.mem_cons_self p rest)
    rw [List.foldl_cons]
    have hstep : min_max_step st p = st := by
      rw [min_max_step, hp, h1, if_neg (lt_irrefl c)]
      rw [h2]
      rw [if_neg (lt_irrefl c)]
    rw [hstep]
    exact ih st (fun q hq => h q (List.mem_cons_of_mem p hq)) h1 h2

/-- The asymmetry of a constant window is 0.5. -/
theorem asymmetry_replicate (n c : Nat) :
    calculate_asymmetry (List.replicate n c) = 1 / 2 := by
  rw [calculate_asymmetry]
  split
  · rfl
  · rename_i hlen
    rw [List.length_replicate] at hlen
    have hn2 : 2 ≤ n := by omega
    obtain ⟨m, rfl⟩ : ∃ m, n = m + 1 := ⟨n - 1, by omega⟩
    have hscan := min_max_step_foldl_const c (List.enumFrom 1 (List.replicate m c))
      { min_val := c, min_idx := 0, max_val := c, max_idx := 0 }
      (fun p hp => by
        rw [(List.mem_enumFrom hp).2.2, List.getElem_replicate])
      rfl rfl
    rw [show min_max_scan (List.replicate (m + 1) c) =
        (List.enumFrom 1 (List.replicate m c)).foldl min_max_step
          { min_val := c, min_idx := 0, max_val := c, max_idx := 0 } from by
      rw [List.replicate_succ, min_max_scan]]
    rw [if_pos (hscan.2.trans hscan.1.symm)]

/-- The skewness guard (feature_extraction.c:110). -/
theorem skewness_guard (samples : List Nat) (mean variance : ℝ)
    (h : samples.length < 3 ∨ variance < 1 / 1000000) :
    calculate_skewness_value samples mean variance = 0 := by
  rw [calculate_skewness_value, if_pos h]

/-- The kurtosis guard (feature_extraction.c:132). -/
theorem kurtosis_guard (samples : List Nat) (mean variance : ℝ)
    (h : samples.length < 4 ∨ variance < 1 / 1000000) :
    calculate_kurtosis_value samples mean variance = 0 := by
  rw [calculate_kurtosis_value, if_pos h]

/-- The full 16-slot feature vector of a constant positive window. -/
theorem extract_features_const (c : Nat) (hc : 1 ≤ c) :
    extract_features (const_window c) =
      [(c : ℝ), 0, c, 0, 0, 0, 0, 1, 0, 0.3, 1 / 2, 0, c, c, 1 / 2, 20] := by
  have hn : WINDOW_SIZE ≠ 0 := by decide
  simp only [extract_features, const_window]
  rw [mean_value_replicate _ _ hn, variance_value_replicate, rms_replicate _ _ hn,
    zcr_replicate, skewness_guard _ _ _ (Or.inr (by norm_num)),
    kurtosis_guard _ _ _ (Or.inr (by norm_num)),
    crest_factor_replicate _ _ hn hc, form_factor_replicate _ _ hn hc,
    periodicity_replicate, harmonic_replicate, asymmetry_replicate,
    min_sample_replicate _ _ hn, max_sample_replicate _ _ hn]
  norm_num [SAMPLING_RATE_HZ]

/-- C8 counterexample: for the constant window of value 2 the form factor
computed by the source pipeline (RMS over mean absolute value) is 1, not
0 — so "every derived statistic is zero for a constant-valued window"
fails as stated. -/
theorem spec_c8_counterexample :
    calculate_form_factor (List.replicate WINDOW_SIZE 2)
      (calculate_rms (List.replicate WINDOW_SIZE 2)) = 1 ∧ (1 : ℝ) ≠ 0 := by
  constructor
  · rw [rms_replicate _ _ (by decide)]
    exact form_factor_replicate _ _ (by decide) (by norm_num)
  · norm_num

/-- C8 (amended): skewness returns 0 whenever `variance < 1e-6` or the
sample count is below 3; kurtosis returns 0 whenever `variance < 1e-6`
or the count is below 4; and for a constant positive window the full
feature vector evaluates exactly to
[c, 0, c, 0, 0, 0, 0, 1, 0, 0.3, 0.5, 0, c, c, 0.5, 20]: variance, ZCR,
skewness, kurtosis, crest factor, periodicity and peak-to-peak are all
0, while form factor is 1, harmonic ratio 0.3 and asymmetry 0.5 — every
quantity is a well-defined finite real and no near-zero division
occurs. -/
theorem spec_c8_degenerate_stats :
    (∀ (samples : List Nat) (mean variance : ℝ),
      samples.length < 3 ∨ variance < 1 / 1000000 →
      calculate_skewness_value samples mean variance = 0) ∧
    (∀ (samples : List Nat) (mean variance : ℝ),
      samples.length < 4 ∨ variance < 1 / 1000000 →
      calculate_kurtosis_value samples mean variance = 0) ∧
    (∀ c : Nat, 1 ≤ c → extract_features (const_window c) =
      [(c : ℝ), 0, c, 0, 0, 0, 0, 1, 0, 0.3, 1 / 2, 0, c, c, 1 / 2, 20]) :=
  ⟨skewness_guard, kurtosis_guard, extract_features_const⟩

/-- Witness for C8 at empty samples and the constant-2 window. -/
theorem spec_c8_witness :
    calculate_skewness_value [] 0 0 = 0 ∧
    extract_features (const_window 2) =
      [(2 : ℝ), 0, 2, 0, 0, 0, 0, 1, 0, 0.3, 1 / 2, 0, 2, 2, 1 / 2, 20] := by
  constructor
  · exact spec_c8_degenerate_stats.1 [] 0 0 (Or.inl (by decide))
  · have h := spec_c8_degenerate_stats.2.2 2 (by decide)
    simpa using h

/-- C1: the spec-modelled engine validates the window against the fixed
ML contract — the validation accepts exactly the windows whose samples
all lie in `[ML_ADC_MIN, ML_ADC_MAX]` and whose stored checksum equals
the additive sum of the samples — and any window failing it yields class
`Noise` with confidence 0 (with the violation counter bumped) without
running the classifier. -/
theorem spec_c1_contract_validation (cfg : heuristic_thresholds)
    (w : window_buffer_t) (v : Nat) :
    (validate_window_contract w = true ↔
      ((∀ x ∈ w.samples, ML_ADC_MIN ≤ x ∧ x ≤ ML_ADC_MAX) ∧
        w.checksum = w.samples.sum)) ∧
    (validate_window_contract w = false →
      run_inference cfg w v =
        ({ predicted_class := .noise, confidence := 0,
           window_id := w.window_id }, v + 1)) := by
  constructor
  · simp [validate_window_contract, ML_VALIDATE_ADC_SAMPLE, List.all_eq_true]
  · intro h
    rw [run_inference, if_neg (by rw [h]; exact Bool.false_ne_true)]

/-- Witness for C1 at a window with a wrong checksum. -/
theorem spec_c1_witness :
    run_inference demo_thresholds bad_window 0 =
      ({ predicted_class := .noise, confidence := 0,
         window_id := bad_window.window_id }, 1) :=
  (spec_c1_contract_validation demo_thresholds bad_window 0).2 (by decide)

/-- C2: the spec-modelled heuristic decision tree's first rule dominates:
whenever the window variance is below the noise threshold the returned
class is `Noise`, whatever the other features are; in particular a
window of all-identical sample values, whose variance as computed by the
source feature extractor is 0, is classified as `Noise` for any positive
threshold. -/
theorem spec_c2_noise_first_rule :
    (∀ (cfg : heuristic_thresholds) (f : signal_feature_vec),
      f.variance < cfg.noise_var_thresh →
      (heuristic_classify cfg f).1 = ml_class.noise) ∧
    (∀ (cfg : heuristic_thresholds) (c : Nat), 0 < cfg.noise_var_thresh →
      (heuristic_classify cfg (features_of_window (const_window c))).1 =
        ml_class.noise) := by
  have hfirst : ∀ (cfg : heuristic_thresholds) (f : signal_feature_vec),
      f.variance < cfg.noise_var_thresh →
      (heuristic_classify cfg f).1 = ml_class.noise := by
    intro cfg f h
    rw [heuristic_classify, if_pos h]
  refine ⟨hfirst, fun cfg c h0 => ?_⟩
  apply hfirst
  have hv : (features_of_window (const_window c)).variance = 0 := by
    simp only [features_of_window, const_window]
    rw [mean_value_replicate _ _ (by decide), variance_value_replicate]
  rw [hv]
  exact h0

/-- Witness for C2 at the constant-7 window and the demo thresholds. -/
theorem spec_c2_witness :
    (heuristic_classify demo_thresholds
      (features_of_window (const_window 7))).1 = ml_class.noise :=
  spec_c2_noise_first_rule.2 demo_thresholds 7 (by norm_num [demo_thresholds])
